import Mathlib

/-
Verification development for the modelon-impact-client library.

The Python modules are shallowly embedded in Lean:
  * `modelon/impact/client/options.py`  (options bags, with_values, with_defaults)
  * `modelon/impact/client/client.py`   (version gate, authentication and retry)
  * `modelon/impact/client/entities/project.py` (Project, ProjectContent, SvnRepoURL)
  * `modelon/impact/client/experiment_definition.py` (SimpleExperimentDefinition)
  * the generic Operation.wait poll loop (modelled from the specification, the
    operations module sources are not part of this tree)

Python dictionaries are embedded as insertion-ordered association lists over an
opaque scalar value type.  Object identity and in-place mutation, where they
matter (deepcopy in `_set_options`), are embedded with an explicit store of
dictionary cells addressed by natural numbers.
-/

set_option maxRecDepth 4000

namespace ImpactClient

/-- Scalar option/modifier values occurring in the client (numbers, strings,
booleans).  Their internal structure is irrelevant to the claims; only
decidable equality is used. -/
inductive Value where
  | int (n : Int)
  | str (s : String)
  | bool (b : Bool)
  deriving DecidableEq, Repr

/-- A Python dict embedded as an insertion-ordered association list. -/
abbrev Dict := List (String × Value)

/-- Python `d[key]`, as a total function returning `none` for a missing key. -/
def Dict.get? : Dict → String → Option Value
  | [], _ => none
  | (k, v) :: rest, key => if k = key then some v else Dict.get? rest key

/-- The keys of a dict in insertion order (Python `iter(d)`). -/
def Dict.keys (d : Dict) : List String := d.map Prod.fst

/-- Python `d[key] = val`: replaces the value in place if the key is present,
otherwise appends the new binding at the end. -/
def Dict.set : Dict → String → Value → Dict
  | [], key, val => [(key, val)]
  | (k, v) :: rest, key, val =>
      if k = key then (k, val) :: rest else (k, v) :: Dict.set rest key val

/-- The loop body of `_set_options`: `for name, value in modified.items():
opts[name] = value`, applied to a base dict. -/
def Dict.update (d : Dict) (modified : Dict) : Dict :=
  modified.foldl (fun acc kv => acc.set kv.1 kv.2) d

/-- Well-formedness of the embedding: a real Python dict never has a duplicated
key. -/
def Dict.WF (d : Dict) : Prop := d.keys.Nodup

/-- Python `d1 == d2` on dicts: same keys bound to equal values, insertion
order ignored. -/
def pyDictEq (d1 d2 : Dict) : Bool :=
  (d1.keys ++ d2.keys).all fun k => d1.get? k == d2.get? k

theorem Dict.get?_set (d : Dict) (k : String) (v : Value) (k' : String) :
    (d.set k v).get? k' = if k = k' then some v else d.get? k' := by
  induction d with
  | nil => by_cases h : k = k' <;> simp [Dict.set, Dict.get?, h]
  | cons kv rest ih =>
    obtain ⟨k0, v0⟩ := kv
    by_cases h0 : k0 = k
    · subst h0
      by_cases h1 : k0 = k' <;> simp [Dict.set, Dict.get?, h1]
    · by_cases h1 : k0 = k'
      · subst h1
        have : ¬ k = k0 := fun h => h0 h.symm
        simp [Dict.set, Dict.get?, h0, this]
      · simp [Dict.set, Dict.get?, h0, h1, ih]

theorem Dict.get?_eq_none_iff (d : Dict) (k : String) :
    d.get? k = none ↔ k ∉ d.keys := by
  induction d with
  | nil => simp [Dict.get?, Dict.keys]
  | cons kv rest ih =>
    obtain ⟨k0, v0⟩ := kv
    simp only [Dict.keys, List.map_cons, List.mem_cons]
    by_cases h : k0 = k
    · subst h; simp [Dict.get?]
    · have hne : ¬ k = k0 := fun he => h he.symm
      rw [show Dict.get? ((k0, v0) :: rest) k = Dict.get? rest k by
        simp [Dict.get?, h]]
      rw [ih]
      simp [Dict.keys, hne]

theorem Dict.get?_eq_some_of_mem (d : Dict) (k : String) (v : Value)
    (hwf : d.WF) (hmem : (k, v) ∈ d) : d.get? k = some v := by
  induction d with
  | nil => simp at hmem
  | cons kv rest ih =>
    obtain ⟨k0, v0⟩ := kv
    simp only [Dict.WF, Dict.keys, List.map_cons, List.nodup_cons] at hwf
    rcases List.mem_cons.mp hmem with h | h
    · injection h with h1 h2
      subst h1; subst h2
      simp [Dict.get?]
    · have hk : ¬ k0 = k := by
        intro he; subst he
        exact hwf.1 (List.mem_map.mpr ⟨(k0, v), h, rfl⟩)
      exact (show Dict.get? ((k0, v0) :: rest) k = Dict.get? rest k by
        simp [Dict.get?, hk]).trans (ih hwf.2 h)

theorem Dict.set_eq_append (d : Dict) (k : String) (v : Value)
    (h : k ∉ d.keys) : d.set k v = d ++ [(k, v)] := by
  induction d with
  | nil => simp [Dict.set]
  | cons kv rest ih =>
    obtain ⟨k0, v0⟩ := kv
    simp only [Dict.keys, List.map_cons, List.mem_cons] at h
    push_neg at h
    have : k0 ≠ k := fun he => h.1 he.symm
    simp [Dict.set, this, ih (by simpa [Dict.keys] using h.2)]

theorem Dict.get?_update (base m : Dict) (hm : m.WF) (k : String) :
    (base.update m).get? k = if k ∈ m.keys then m.get? k else base.get? k := by
  induction m generalizing base with
  | nil => simp [Dict.update, Dict.keys]
  | cons kv rest ih =>
    obtain ⟨k0, v0⟩ := kv
    simp only [Dict.WF, Dict.keys, List.map_cons, List.nodup_cons] at hm
    have hstep : (base.update ((k0, v0) :: rest)) = (base.set k0 v0).update rest := rfl
    rw [hstep, ih _ hm.2, Dict.get?_set]
    simp only [Dict.keys, List.map_cons, List.mem_cons]
    by_cases he : k0 = k
    · subst he
      have hk : ¬ k0 ∈ List.map Prod.fst rest := hm.1
      simp [Dict.keys, hk, Dict.get?]
    · have hne : ¬ k = k0 := fun h => he h.symm
      by_cases hk : k ∈ List.map Prod.fst rest
      · simp [Dict.keys, hk, he, hne, Dict.get?]
      · simp [Dict.keys, hk, he, hne]

theorem pyDictEq_iff (d1 d2 : Dict) :
    pyDictEq d1 d2 = true ↔ ∀ k, d1.get? k = d2.get? k := by
  constructor
  · intro h k
    by_cases h1 : k ∈ d1.keys ++ d2.keys
    · have := (List.all_eq_true.mp h) k h1
      simpa using this
    · simp only [List.mem_append] at h1
      push_neg at h1
      rw [(Dict.get?_eq_none_iff d1 k).mpr h1.1, (Dict.get?_eq_none_iff d2 k).mpr h1.2]
  · intro h
    apply List.all_eq_true.mpr
    intro k _
    simp [h k]

/-! Store of dict cells: makes object identity and in-place mutation of Python
dicts observable, so that the deepcopy in `_set_options` is a provable
frame property rather than a modelling artefact. -/

/-- A heap of Python dict objects addressed by allocation order. -/
structure Store where
  cells : List Dict

/-- Dereference an address (a dangling address reads as the empty dict). -/
def Store.read (σ : Store) (a : Nat) : Dict := σ.cells.getD a []

/-- Allocate a fresh dict cell, returning the new store and the new address. -/
def Store.alloc (σ : Store) (d : Dict) : Store × Nat :=
  (⟨σ.cells ++ [d]⟩, σ.cells.length)

theorem Store.read_alloc_new (σ : Store) (d : Dict) :
    (σ.alloc d).1.read (σ.alloc d).2 = d := by
  simp [Store.alloc, Store.read, List.getD_eq_getElem?_getD]

theorem Store.read_alloc_old (σ : Store) (d : Dict) (a : Nat)
    (h : a < σ.cells.length) : (σ.alloc d).1.read a = σ.read a := by
  simp [Store.alloc, Store.read, List.getD_eq_getElem?_getD, List.getElem?_append_left h]

/-! Embedding of `modelon/impact/client/options.py`. -/

/-- The four concrete variants of `ExecutionOptions`, distinguished only by
their `name` property. -/
inductive OptionsVariant where
  | compiler
  | runtime
  | simulation
  | solver
  deriving DecidableEq, Repr

/-- The `name` property of each variant class. -/
def OptionsVariant.variantName : OptionsVariant → String
  | .compiler => "compiler"
  | .runtime => "runtime"
  | .simulation => "simulation"
  | .solver => "solver"

/-- An `ExecutionOptions` instance: `_workspace_id`, a reference to the
`_values` dict in the store, `_custom_function_name`, and the concrete
variant.  The `_custom_func_sal` service handle is passed separately to the
operations that use it. -/
structure ExecutionOptionsBag where
  workspaceId : String
  valuesAddr : Nat
  customFunctionName : String
  variant : OptionsVariant
  deriving DecidableEq, Repr

/-- `__getitem__`: `self._values[key]`. -/
def ExecutionOptionsBag.getItem (σ : Store) (bag : ExecutionOptionsBag)
    (key : String) : Option Value :=
  (σ.read bag.valuesAddr).get? key

/-- `__iter__`: `self._values.__iter__()`, the keys in insertion order. -/
def ExecutionOptionsBag.iterKeys (σ : Store) (bag : ExecutionOptionsBag) :
    List String :=
  (σ.read bag.valuesAddr).keys

/-- `__len__`: `self._values.__len__()`. -/
def ExecutionOptionsBag.lenBag (σ : Store) (bag : ExecutionOptionsBag) : Nat :=
  (σ.read bag.valuesAddr).length

/-- `_set_options(options, **modified)`: deepcopy the receiver dict, then
apply each keyword assignment to the copy.  In the store this allocates a
fresh cell holding the updated mapping. -/
def setOptions (σ : Store) (addr : Nat) (modified : Dict) : Store × Nat :=
  σ.alloc ((σ.read addr).update modified)

/-- `ExecutionOptions.with_values(**modified)`: `_set_options` on `_values`,
then `self.data(values)`, which constructs a new instance of the same variant
with the same workspace id, custom function name and service handle. -/
def withValues (σ : Store) (bag : ExecutionOptionsBag) (modified : Dict) :
    Store × ExecutionOptionsBag :=
  let r := setOptions σ bag.valuesAddr modified
  (r.1, { bag with valuesAddr := r.2 })

/-- `ExecutionOptions.with_defaults()`: fetches
`custom_function_default_options_get(workspace_id, custom_function_name)`,
selects the sub-dict under the `name` of the variant, and overlays it with
`with_values`.  `defaultOptionsGet` is the remote service response, indexed by
workspace id, custom function name and namespace. -/
def withDefaults (σ : Store) (bag : ExecutionOptionsBag)
    (defaultOptionsGet : String → String → String → Dict) :
    Store × ExecutionOptionsBag :=
  withValues σ bag
    (defaultOptionsGet bag.workspaceId bag.customFunctionName bag.variant.variantName)

/-- `dict(self)` as computed by `collections.abc.Mapping.__eq__`: a fresh dict
built by iterating the keys and reading each item. -/
def ExecutionOptionsBag.toPyDict (σ : Store) (bag : ExecutionOptionsBag) : Dict :=
  (bag.iterKeys σ).foldl
    (fun acc k =>
      match bag.getItem σ k with
      | some v => acc.set k v
      | none => acc)
    []

/-- `Mapping.__eq__` (inherited by every options bag):
`isinstance(other, Mapping) and dict(self) == dict(other)`.  Both sides are
options bags, so the isinstance test holds. -/
def bagEq (σ : Store) (a b : ExecutionOptionsBag) : Bool :=
  pyDictEq (a.toPyDict σ) (b.toPyDict σ)

theorem foldl_set_of_disjoint (d : Dict) (full : Dict) (acc : Dict)
    (hfull : ∀ k v, (k, v) ∈ d → full.get? k = some v)
    (hdisj : ∀ k, k ∈ d.keys → k ∉ acc.keys)
    (hnd : d.keys.Nodup) :
    d.keys.foldl
      (fun a k =>
        match full.get? k with
        | some v => a.set k v
        | none => a)
      acc = acc ++ d := by
  induction d generalizing acc with
  | nil => simp [Dict.keys]
  | cons kv rest ih =>
    obtain ⟨k0, v0⟩ := kv
    simp only [Dict.keys, List.map_cons, List.foldl_cons]
    rw [hfull k0 v0 (List.mem_cons_self _ _)]
    have hk0 : k0 ∉ acc.keys := hdisj k0 (by simp [Dict.keys])
    have hred :
        (match some v0 with
          | some v => acc.set k0 v
          | none => acc) = acc.set k0 v0 := rfl
    rw [hred, Dict.set_eq_append acc k0 v0 hk0]
    simp only [Dict.keys, List.map_cons, List.nodup_cons] at hnd
    have := ih (acc ++ [(k0, v0)])
      (fun k v h => hfull k v (List.mem_cons_of_mem _ h))
      (fun k hk => by
        simp only [Dict.keys, List.map_append, List.mem_append, List.map_cons]
        push_neg
        refine ⟨fun hc => hdisj k (List.mem_cons_of_mem _ hk) hc, ?_⟩
        simp only [List.map_nil, List.mem_singleton]
        intro he; subst he
        exact hnd.1 hk)
      hnd.2
    rw [show Dict.keys rest = List.map Prod.fst rest from rfl] at this
    rw [this, List.append_assoc, List.singleton_append]

/-- For a well-formed underlying dict, `dict(self)` rebuilt from iteration and
item access is the underlying dict itself. -/
theorem toPyDict_eq (σ : Store) (bag : ExecutionOptionsBag)
    (hwf : (σ.read bag.valuesAddr).WF) :
    bag.toPyDict σ = σ.read bag.valuesAddr := by
  have := foldl_set_of_disjoint (σ.read bag.valuesAddr) (σ.read bag.valuesAddr) []
    (fun k v h => Dict.get?_eq_some_of_mem _ k v hwf h)
    (fun k _ => by simp [Dict.keys])
    hwf
  simpa [ExecutionOptionsBag.toPyDict, ExecutionOptionsBag.iterKeys,
    ExecutionOptionsBag.getItem] using this

/-- C3: for every options bag and every keyword assignment, `with_values` and
`with_defaults` leave the receiver dict cell unchanged (so `__getitem__`,
`__iter__` and `__len__` on the receiver are identical before and after) and
return a new bag instance, at a fresh address, carrying the updated mapping. -/
theorem with_values_copy_on_write (σ : Store) (bag : ExecutionOptionsBag)
    (m : Dict) (dget : String → String → String → Dict)
    (hvalid : bag.valuesAddr < σ.cells.length) :
    ((withValues σ bag m).1.read bag.valuesAddr = σ.read bag.valuesAddr
      ∧ (withValues σ bag m).2.valuesAddr ≠ bag.valuesAddr
      ∧ (withValues σ bag m).1.read (withValues σ bag m).2.valuesAddr
          = (σ.read bag.valuesAddr).update m
      ∧ (∀ key, ExecutionOptionsBag.getItem (withValues σ bag m).1 bag key
          = ExecutionOptionsBag.getItem σ bag key)
      ∧ ExecutionOptionsBag.iterKeys (withValues σ bag m).1 bag
          = ExecutionOptionsBag.iterKeys σ bag
      ∧ ExecutionOptionsBag.lenBag (withValues σ bag m).1 bag
          = ExecutionOptionsBag.lenBag σ bag)
    ∧ ((withDefaults σ bag dget).1.read bag.valuesAddr = σ.read bag.valuesAddr
      ∧ (withDefaults σ bag dget).2.valuesAddr ≠ bag.valuesAddr) := by
  have h1 : (withValues σ bag m).1.read bag.valuesAddr = σ.read bag.valuesAddr :=
    Store.read_alloc_old σ _ _ hvalid
  refine ⟨⟨h1, ?_, ?_, ?_, ?_, ?_⟩, ?_, ?_⟩
  · show σ.cells.length ≠ bag.valuesAddr
    omega
  · exact Store.read_alloc_new σ _
  · intro key
    simp [ExecutionOptionsBag.getItem, h1]
  · simp [ExecutionOptionsBag.iterKeys, h1]
  · simp [ExecutionOptionsBag.lenBag, h1]
  · exact Store.read_alloc_old σ _ _ hvalid
  · show σ.cells.length ≠ bag.valuesAddr
    omega

def sampleStore : Store :=
  ⟨[[("ncp", Value.int 500)], [("rtol", Value.str "1e-6")]]⟩

def sampleBag : ExecutionOptionsBag :=
  ⟨"workspace1", 0, "dynamic", OptionsVariant.simulation⟩

def sampleBag2 : ExecutionOptionsBag :=
  ⟨"workspace1", 1, "dynamic", OptionsVariant.solver⟩

def sampleDget : String → String → String → Dict :=
  fun _ _ _ => [("ncp", Value.int 2000), ("solver", Value.str "CVode")]

/-- Witness for C3 at a concrete store, bag, update and server response. -/
theorem with_values_copy_on_write_witness :
    (withValues sampleStore sampleBag [("ncp", Value.int 1)]).1.read
        sampleBag.valuesAddr = sampleStore.read sampleBag.valuesAddr
    ∧ (withValues sampleStore sampleBag [("ncp", Value.int 1)]).1.read
          (withValues sampleStore sampleBag [("ncp", Value.int 1)]).2.valuesAddr
        = (sampleStore.read sampleBag.valuesAddr).update [("ncp", Value.int 1)]
    ∧ ExecutionOptionsBag.iterKeys
          (withValues sampleStore sampleBag [("ncp", Value.int 1)]).1 sampleBag
        = ExecutionOptionsBag.iterKeys sampleStore sampleBag
    ∧ (withDefaults sampleStore sampleBag sampleDget).1.read sampleBag.valuesAddr
        = sampleStore.read sampleBag.valuesAddr :=
  have h := with_values_copy_on_write sampleStore sampleBag [("ncp", Value.int 1)]
    sampleDget (by decide)
  ⟨h.1.1, h.1.2.2.1, h.1.2.2.2.2.1, h.2.1⟩

/-- C6: equality on options bags delegates to the underlying mapping (two bags
are equal exactly when their underlying dicts agree on every key, order
ignored), and iteration yields exactly the keys of the underlying mapping. -/
theorem bag_eq_and_iter_delegate (σ : Store) (a b : ExecutionOptionsBag)
    (ha : (σ.read a.valuesAddr).WF) (hb : (σ.read b.valuesAddr).WF) :
    (bagEq σ a b = true ↔
      ∀ k, (σ.read a.valuesAddr).get? k = (σ.read b.valuesAddr).get? k)
    ∧ a.iterKeys σ = (σ.read a.valuesAddr).keys := by
  constructor
  · rw [bagEq, toPyDict_eq σ a ha, toPyDict_eq σ b hb]
    exact pyDictEq_iff _ _
  · rfl

/-- Witness for C6 at a concrete store with two well-formed bags. -/
theorem bag_eq_and_iter_delegate_witness :
    sampleBag.iterKeys sampleStore
        = (sampleStore.read sampleBag.valuesAddr).keys :=
  (bag_eq_and_iter_delegate sampleStore sampleBag sampleBag2
    (by unfold Dict.WF; decide) (by unfold Dict.WF; decide)).2

/-- C7: `with_defaults()` returns a bag whose mapping is the receiver mapping
overlaid with the server default mapping for the custom function under the
bag namespace: keys of the default mapping take the default value, all other
keys keep the receiver value. -/
theorem with_defaults_overlay (σ : Store) (bag : ExecutionOptionsBag)
    (dget : String → String → String → Dict)
    (hwf : (dget bag.workspaceId bag.customFunctionName bag.variant.variantName).WF) :
    ∀ k,
      (k ∈ (dget bag.workspaceId bag.customFunctionName bag.variant.variantName).keys →
        ((withDefaults σ bag dget).1.read (withDefaults σ bag dget).2.valuesAddr).get? k
          = (dget bag.workspaceId bag.customFunctionName bag.variant.variantName).get? k)
      ∧ (k ∉ (dget bag.workspaceId bag.customFunctionName bag.variant.variantName).keys →
        ((withDefaults σ bag dget).1.read (withDefaults σ bag dget).2.valuesAddr).get? k
          = (σ.read bag.valuesAddr).get? k) := by
  intro k
  have hread : (withDefaults σ bag dget).1.read (withDefaults σ bag dget).2.valuesAddr
      = (σ.read bag.valuesAddr).update
          (dget bag.workspaceId bag.customFunctionName bag.variant.variantName) :=
    Store.read_alloc_new σ _
  rw [hread, Dict.get?_update _ _ hwf]
  constructor
  · intro hk; simp [hk]
  · intro hk; simp [hk]

/-- Witness for C7 at a concrete store, bag, server default response and key:
the default key ncp takes the server value; the receiver-only key rtol is
untouched (evaluated with a solver-variant bag over the second cell). -/
theorem with_defaults_overlay_witness :
    ((withDefaults sampleStore sampleBag sampleDget).1.read
        (withDefaults sampleStore sampleBag sampleDget).2.valuesAddr).get? "ncp"
      = (sampleDget sampleBag.workspaceId sampleBag.customFunctionName
          sampleBag.variant.variantName).get? "ncp"
    ∧ ((withDefaults sampleStore sampleBag2 sampleDget).1.read
        (withDefaults sampleStore sampleBag2 sampleDget).2.valuesAddr).get? "rtol"
      = (sampleStore.read sampleBag2.valuesAddr).get? "rtol" :=
  ⟨(with_defaults_overlay sampleStore sampleBag sampleDget
      (by unfold Dict.WF; decide) "ncp").1 (by decide),
    (with_defaults_overlay sampleStore sampleBag2 sampleDget
      (by unfold Dict.WF; decide) "rtol").2 (by decide)⟩

/-! Operation/polling abstraction.  Modelled from the spec: the operations
module itself is not part of this source tree, only its exception classes
(`exceptions.py`) and its callers are.  The model follows section 4.2 of the
specification: `wait` repeatedly queries status with a fixed inter-poll delay
until the target status (or any terminal status) is reached or the timeout
elapses, raising `OperationTimeOutError` on timeout and
`OperationFailureError` if the job reaches FAILED or CANCELLED while waiting
for DONE. -/

/-- Operation states as presented by `status()`. -/
inductive OperationStatus where
  | notStarted
  | running
  | done
  | failed
  | cancelled
  deriving DecidableEq, Repr

/-- Terminal states are DONE, FAILED and CANCELLED. -/
def OperationStatus.isTerminal : OperationStatus → Bool
  | .done => true
  | .failed => true
  | .cancelled => true
  | _ => false

/-- The terminal-but-unsuccessful states FAILED and CANCELLED. -/
def OperationStatus.isUnsuccessfulTerminal : OperationStatus → Bool
  | .failed => true
  | .cancelled => true
  | _ => false

/-- The observable outcome of a `wait()` call: normal return,
`OperationTimeOutError`, or `OperationFailureError` carrying the offending
terminal state. -/
inductive WaitOutcome where
  | completed
  | timedOut
  | opFailed (s : OperationStatus)
  deriving DecidableEq, Repr

/-- Modelled from the spec: the blocking poll loop of `Operation.wait(timeout,
status)`.  `poll i` is the server-reported status at the i-th poll (the server
is the sole source of truth; nothing is computed locally), `start` is the
index of the next poll and `fuel` is the number of polls that fit before the
wall-clock deadline (`fuel = 0` means the deadline has elapsed). -/
def operationWait (poll : Nat → OperationStatus) (target : OperationStatus) :
    Nat → Nat → WaitOutcome
  | _, 0 => .timedOut
  | start, fuel + 1 =>
    if poll start = target then .completed
    else if (poll start).isUnsuccessfulTerminal then .opFailed (poll start)
    else operationWait poll target (start + 1) fuel

theorem operationWait_done_spec (poll : Nat → OperationStatus) :
    ∀ fuel start,
      (operationWait poll .done start fuel = .completed ↔
        ∃ i, i < fuel ∧ poll (start + i) = .done ∧
          ∀ j, j < i → (poll (start + j)).isTerminal = false)
      ∧ ((∃ s, operationWait poll .done start fuel = .opFailed s) ↔
        ∃ i, i < fuel ∧ (poll (start + i)).isUnsuccessfulTerminal = true ∧
          ∀ j, j < i → (poll (start + j)).isTerminal = false)
      ∧ (operationWait poll .done start fuel = .timedOut ↔
        ∀ i, i < fuel → (poll (start + i)).isTerminal = false) := by
  intro fuel
  induction fuel with
  | zero =>
    intro start
    refine ⟨?_, ?_, ?_⟩ <;> simp [operationWait]
  | succ fuel ih =>
    intro start
    by_cases hdone : poll start = .done
    · have hev : operationWait poll .done start (fuel + 1) = .completed := by
        simp [operationWait, hdone]
      refine ⟨?_, ?_, ?_⟩
      · rw [hev]
        constructor
        · intro _
          exact ⟨0, Nat.succ_pos _, by simpa using hdone, fun j hj => absurd hj (Nat.not_lt_zero j)⟩
        · intro _; rfl
      · rw [hev]
        constructor
        · rintro ⟨s, hs⟩; cases hs
        · rintro ⟨i, _, hi, hall⟩
          cases i with
          | zero => rw [show start + 0 = start from rfl, hdone] at hi; cases hi
          | succ i =>
            have := hall 0 (Nat.succ_pos _)
            rw [show start + 0 = start from rfl, hdone] at this
            cases this
      · rw [hev]
        constructor
        · intro h; cases h
        · intro h
          have := h 0 (Nat.succ_pos _)
          rw [show start + 0 = start from rfl, hdone] at this
          cases this
    · by_cases hfail : (poll start).isUnsuccessfulTerminal = true
      · have hev : operationWait poll .done start (fuel + 1) = .opFailed (poll start) := by
          simp [operationWait, hdone, hfail]
        have hterm : (poll start).isTerminal = true := by
          cases hs : poll start <;> rw [hs] at hfail <;> simp_all [OperationStatus.isTerminal,
            OperationStatus.isUnsuccessfulTerminal]
        refine ⟨?_, ?_, ?_⟩
        · rw [hev]
          constructor
          · intro h; cases h
          · rintro ⟨i, _, hi, hall⟩
            cases i with
            | zero => exact absurd (by simpa using hi) hdone
            | succ i =>
              have := hall 0 (Nat.succ_pos _)
              rw [show start + 0 = start from rfl, hterm] at this
              cases this
        · rw [hev]
          constructor
          · intro _
            exact ⟨0, Nat.succ_pos _, by simpa using hfail,
              fun j hj => absurd hj (Nat.not_lt_zero j)⟩
          · intro _; exact ⟨poll start, rfl⟩
        · rw [hev]
          constructor
          · intro h; cases h
          · intro h
            have := h 0 (Nat.succ_pos _)
            rw [show start + 0 = start from rfl, hterm] at this
            cases this
      · have hterm : (poll start).isTerminal = false := by
          cases hs : poll start <;> rw [hs] at hdone hfail <;>
            simp_all [OperationStatus.isTerminal, OperationStatus.isUnsuccessfulTerminal]
        have hev : operationWait poll .done start (fuel + 1)
            = operationWait poll .done (start + 1) fuel := by
          simp [operationWait, hdone, hfail]
        obtain ⟨ihc, ihf, iht⟩ := ih (start + 1)
        have hshift : ∀ j : Nat, start + (j + 1) = (start + 1) + j := by
          intro j; omega
        refine ⟨?_, ?_, ?_⟩
        · rw [hev, ihc]
          constructor
          · rintro ⟨i, hlt, hi, hall⟩
            exact ⟨i + 1, Nat.succ_lt_succ hlt, by rw [hshift i]; exact hi,
              fun j hj => by
                cases j with
                | zero => simpa using hterm
                | succ j => rw [hshift j]; exact hall j (Nat.lt_of_succ_lt_succ hj)⟩
          · rintro ⟨i, hlt, hi, hall⟩
            cases i with
            | zero => exact absurd (by simpa using hi) hdone
            | succ i =>
              refine ⟨i, Nat.lt_of_succ_lt_succ hlt, by rw [hshift i] at hi; exact hi,
                fun j hj => ?_⟩
              rw [← hshift j]
              exact hall (j + 1) (Nat.succ_lt_succ hj)
        · rw [hev, ihf]
          constructor
          · rintro ⟨i, hlt, hi, hall⟩
            exact ⟨i + 1, Nat.succ_lt_succ hlt, by rw [hshift i]; exact hi,
              fun j hj => by
                cases j with
                | zero => simpa using hterm
                | succ j => rw [hshift j]; exact hall j (Nat.lt_of_succ_lt_succ hj)⟩
          · rintro ⟨i, hlt, hi, hall⟩
            cases i with
            | zero =>
              rw [show start + 0 = start from rfl] at hi
              rw [hi] at hfail
              cases hfail rfl
            | succ i =>
              refine ⟨i, Nat.lt_of_succ_lt_succ hlt, by rw [hshift i] at hi; exact hi,
                fun j hj => ?_⟩
              rw [← hshift j]
              exact hall (j + 1) (Nat.succ_lt_succ hj)
        · rw [hev, iht]
          constructor
          · intro h j hj
            cases j with
            | zero => simpa using hterm
            | succ j => rw [hshift j]; exact h j (Nat.lt_of_succ_lt_succ hj)
          · intro h i hi
            rw [← hshift i]
            exact h (i + 1) (Nat.succ_lt_succ hi)

/-- C2: for every job (poll trace) and every timeout (poll budget), `wait()`
returns normally iff the job reaches the requested terminal success state DONE
before the timeout elapses; it raises `OperationTimeOutError` iff the deadline
elapses while the job is still non-terminal at every poll; and it raises
`OperationFailureError` iff the job reaches a terminal-but-unsuccessful state
(FAILED or CANCELLED) before reaching DONE.  Modelled from the spec (the
operations module is not in this source tree). -/
theorem operation_wait_outcomes (poll : Nat → OperationStatus) (fuel : Nat) :
    (operationWait poll .done 0 fuel = .completed ↔
      ∃ i, i < fuel ∧ poll i = .done ∧
        ∀ j, j < i → (poll j).isTerminal = false)
    ∧ ((∃ s, operationWait poll .done 0 fuel = .opFailed s) ↔
      ∃ i, i < fuel ∧ (poll i).isUnsuccessfulTerminal = true ∧
        ∀ j, j < i → (poll j).isTerminal = false)
    ∧ (operationWait poll .done 0 fuel = .timedOut ↔
      ∀ i, i < fuel → (poll i).isTerminal = false) := by
  have := operationWait_done_spec poll fuel 0
  simpa using this

/-! Embedding of the semantic-version gate of `Client.__init__`
(`client.py`, `_validate_compatible_api_version` and
`_SUPPORTED_VERSION_RANGE`).  The membership test
`Version(version) in SimpleSpec(">=1.21.3,<4.0.0")` is performed by the
`semantic_version` dependency with its default (natural) prerelease policy:
a `>=T` clause is plain precedence comparison, while a `<T` clause with a
release target T additionally excludes prereleases of T itself.  Build
metadata is omitted from the model: the library truncates the build component
before matching a clause and ignores it in precedence comparison, so it
cannot influence the gate. -/

/-- A semver 2.0.0 prerelease identifier: numeric identifiers compare
numerically and precede alphanumeric identifiers, which compare as ASCII
strings. -/
inductive PreId where
  | num (n : Nat)
  | alnum (s : String)
  deriving DecidableEq, Repr

/-- A semantic version (build metadata omitted, see above). -/
structure SemVer where
  major : Nat
  minor : Nat
  patch : Nat
  prerelease : List PreId
  deriving DecidableEq, Repr

/-- Strict order on prerelease identifiers (semver 2.0.0 rule 11). -/
def preIdLt : PreId → PreId → Bool
  | .num a, .num b => decide (a < b)
  | .num _, .alnum _ => true
  | .alnum _, .num _ => false
  | .alnum a, .alnum b => decide (a < b)

/-- Lexicographic order on nonempty prerelease identifier lists; a strict
initial segment precedes the longer list. -/
def preListLt : List PreId → List PreId → Bool
  | _, [] => false
  | [], _ :: _ => true
  | a :: as, b :: bs => preIdLt a b || (a == b && preListLt as bs)

/-- Strict semver precedence: major, minor, patch numerically; a prerelease
precedes the plain release with the same core; prerelease lists compare
lexicographically. -/
def semverLt (a b : SemVer) : Bool :=
  decide (a.major < b.major) ||
  (a.major == b.major && (decide (a.minor < b.minor) ||
    (a.minor == b.minor && (decide (a.patch < b.patch) ||
      (a.patch == b.patch &&
        match a.prerelease, b.prerelease with
        | [], _ => false
        | _ :: _, [] => true
        | p :: ps, q :: qs => preListLt (p :: ps) (q :: qs))))))

/-- Non-strict semver precedence. -/
def semverLe (a b : SemVer) : Bool := semverLt a b || a == b

/-- A `>=target` clause of a `SimpleSpec`: precedence comparison
`version >= target`. -/
def rangeGte (v target : SemVer) : Bool := semverLt target v || v == target

/-- A `<target` clause of a `SimpleSpec` under the default prerelease policy:
`version < target`, except that a prerelease of a release target is excluded
even though it precedes the target. -/
def rangeLt (v target : SemVer) : Bool :=
  if !v.prerelease.isEmpty && v.major == target.major && v.minor == target.minor
      && v.patch == target.patch && target.prerelease.isEmpty then
    false
  else
    semverLt v target

/-- The lower bound of `Client._SUPPORTED_VERSION_RANGE`. -/
def lowerBoundVersion : SemVer := ⟨1, 21, 3, []⟩

/-- The upper bound of `Client._SUPPORTED_VERSION_RANGE`. -/
def upperBoundVersion : SemVer := ⟨4, 0, 0, []⟩

/-- `Client._SUPPORTED_VERSION_RANGE`. -/
def supportedVersionRange : String := ">=1.21.3,<4.0.0"

/-- `Version(version) in SimpleSpec(">=1.21.3,<4.0.0")`: the conjunction of
the two clauses. -/
def inSupportedRange (v : SemVer) : Bool :=
  rangeGte v lowerBoundVersion && rangeLt v upperBoundVersion

/-- A single-quote character, used when rendering the error message. -/
def squote : String := Char.toString (Char.ofNat 39)

/-- Rendering of one prerelease identifier. -/
def preIdString : PreId → String
  | .num n => toString n
  | .alnum s => s

/-- Rendering of the prerelease part, dot-separated. -/
def prereleaseString (pre : List PreId) : String :=
  String.intercalate "." (pre.map preIdString)

/-- Rendering of a semantic version, `major.minor.patch[-prerelease]`. -/
def versionString (v : SemVer) : String :=
  toString v.major ++ "." ++ toString v.minor ++ "." ++ toString v.patch ++
    (if v.prerelease.isEmpty then "" else "-" ++ prereleaseString v.prerelease)

/-- The message of the `UnsupportedSemanticVersionError` raised by
`_validate_compatible_api_version` (the f-string of `client.py`, including
its misspelling of Upgrade). -/
def unsupportedVersionMessage (v : SemVer) : String :=
  "Version " ++ squote ++ versionString v ++ squote ++
    " of the HTTP REST API is not supported, must be in the range " ++
    squote ++ supportedVersionRange ++ squote ++
    "! Updgrade or downgrade this package to a version that supports version " ++
    squote ++ versionString v ++ squote ++ " of the HTTP REST API."

/-- `Client._validate_compatible_api_version`, applied to the version
advertised by the metadata endpoint: `Client.__init__` propagates the
`UnsupportedSemanticVersionError`, so construction succeeds only on `ok`. -/
def validateCompatibleApiVersion (v : SemVer) : Except String Unit :=
  if inSupportedRange v then Except.ok ()
  else Except.error (unsupportedVersionMessage v)

/-- C1 counterexample: the advertised version 4.0.0-rc.1 falls inside the
half-open semver interval [1.21.3, 4.0.0) — it strictly precedes 4.0.0 — yet
the version gate rejects it, because the SimpleSpec clause `<4.0.0` excludes
prereleases of 4.0.0.  So construction does not succeed for every version in
the stated range. -/
theorem client_version_gate_counterexample :
    semverLe lowerBoundVersion ⟨4, 0, 0, [PreId.alnum "rc", PreId.num 1]⟩ = true
    ∧ semverLt ⟨4, 0, 0, [PreId.alnum "rc", PreId.num 1]⟩ upperBoundVersion = true
    ∧ validateCompatibleApiVersion ⟨4, 0, 0, [PreId.alnum "rc", PreId.num 1]⟩
      = Except.error
          (unsupportedVersionMessage ⟨4, 0, 0, [PreId.alnum "rc", PreId.num 1]⟩) := by
  refine ⟨by decide, by decide, ?_⟩
  rfl

/-- C1 (amended): construction succeeds iff the advertised version lies in
[1.21.3, 4.0.0) and is not a prerelease of 4.0.0 itself (the SimpleSpec
clause `<4.0.0` excludes such prereleases); a rejected version always yields
the `UnsupportedSemanticVersionError` whose message contains both the
offending version and the accepted range `>=1.21.3,<4.0.0`. -/
theorem client_version_gate (v : SemVer) :
    (validateCompatibleApiVersion v = Except.ok () ↔
      (semverLe lowerBoundVersion v = true ∧ semverLt v upperBoundVersion = true
        ∧ ¬(v.prerelease ≠ [] ∧ v.major = 4 ∧ v.minor = 0 ∧ v.patch = 0)))
    ∧ (validateCompatibleApiVersion v = Except.ok ()
        ∨ validateCompatibleApiVersion v
            = Except.error (unsupportedVersionMessage v))
    ∧ (∃ s1 s2, unsupportedVersionMessage v = s1 ++ (versionString v ++ s2))
    ∧ (∃ s3 s4, unsupportedVersionMessage v = s3 ++ (supportedVersionRange ++ s4)) := by
  refine ⟨?_, ?_, ?_, ?_⟩
  · rw [validateCompatibleApiVersion]
    by_cases hr : inSupportedRange v = true
    · rw [if_pos hr]
      simp only [true_iff]
      rw [inSupportedRange, Bool.and_eq_true] at hr
      obtain ⟨hg, hl⟩ := hr
      refine ⟨?_, ?_, ?_⟩
      · rw [rangeGte, Bool.or_eq_true] at hg
        rw [semverLe, Bool.or_eq_true]
        rcases hg with h | h
        · exact Or.inl h
        · exact Or.inr (by rw [beq_iff_eq] at h ⊢; exact h.symm)
      · rw [rangeLt] at hl
        by_cases hc : (!v.prerelease.isEmpty && v.major == upperBoundVersion.major
            && v.minor == upperBoundVersion.minor && v.patch == upperBoundVersion.patch
            && upperBoundVersion.prerelease.isEmpty) = true
        · rw [if_pos hc] at hl; cases hl
        · rw [if_neg hc] at hl; exact hl
      · rw [rangeLt] at hl
        intro ⟨hpre, hmaj, hmin, hpat⟩
        have hc : (!v.prerelease.isEmpty && v.major == upperBoundVersion.major
            && v.minor == upperBoundVersion.minor && v.patch == upperBoundVersion.patch
            && upperBoundVersion.prerelease.isEmpty) = true := by
          simp [upperBoundVersion, hmaj, hmin, hpat, List.isEmpty_iff, hpre]
        rw [if_pos hc] at hl; cases hl
    · rw [if_neg hr]
      simp only [reduceCtorEq, false_iff]
      intro ⟨hle, hlt, hnp⟩
      apply hr
      rw [inSupportedRange, Bool.and_eq_true]
      constructor
      · rw [rangeGte, Bool.or_eq_true]
        rw [semverLe, Bool.or_eq_true] at hle
        rcases hle with h | h
        · exact Or.inl h
        · exact Or.inr (by rw [beq_iff_eq] at h ⊢; exact h.symm)
      · rw [rangeLt, if_neg]
        · exact hlt
        · intro hc
          simp only [Bool.and_eq_true, Bool.not_eq_eq_eq_not, Bool.not_true,
            beq_iff_eq, upperBoundVersion] at hc
          exact hnp ⟨by
            intro he
            rw [List.isEmpty_iff.mpr he] at hc
            exact absurd hc.1.1.1.1 (by decide),
            hc.1.1.1.2, hc.1.1.2, hc.1.2⟩
  · rw [validateCompatibleApiVersion]
    by_cases hr : inSupportedRange v = true
    · exact Or.inl (if_pos hr)
    · exact Or.inr (if_neg hr)
  · refine ⟨"Version " ++ squote,
      squote ++ " of the HTTP REST API is not supported, must be in the range " ++
        squote ++ supportedVersionRange ++ squote ++
        "! Updgrade or downgrade this package to a version that supports version " ++
        squote ++ versionString v ++ squote ++ " of the HTTP REST API.", ?_⟩
    rw [unsupportedVersionMessage]
    simp only [String.append_assoc]
  · refine ⟨"Version " ++ squote ++ versionString v ++ squote ++
        " of the HTTP REST API is not supported, must be in the range " ++ squote,
      squote ++
        "! Updgrade or downgrade this package to a version that supports version " ++
        squote ++ versionString v ++ squote ++ " of the HTTP REST API.", ?_⟩
    rw [unsupportedVersionMessage]
    simp only [String.append_assoc]

/-! Embedding of the authentication phase of `Client.__init__`
(`client.py`, lines 187-200) and of `Client._authenticate_against_api`.
The credential manager and the login endpoint are external collaborators,
modelled as an environment; the observable side effects (warnings, the login
request with its payload, writes of the key file, the prompt) are recorded as
an event trace.  The login payload itself is built inside the service layer,
which is not part of this source tree; modelled from the spec and the tests:
`POST /api/login` sends `secretKey` when a non-empty key is used and an empty
payload `{}` otherwise. -/

/-- A transport-level error (`sal.exceptions.HTTPError`), identified by its
status code. -/
structure HTTPErr where
  code : Nat
  deriving DecidableEq, Repr

/-- Observable side effects of the authentication phase, in order. -/
inductive AuthEvent where
  | warnedAnonymous
  | apiLogin (payload : Option String)
  | wroteKeyToFile (key : String)
  | warnedInvalidKey
  | promptedForKey
  deriving DecidableEq, Repr

/-- Python truthiness of an optional api key: `None` and the empty string are
falsy. -/
def keyTruthy : Option String → Bool
  | none => false
  | some s => !(s == "")

/-- The login payload: `secretKey` for a truthy key, the empty payload `{}`
(`none`) otherwise.  Modelled from the spec and the login tests. -/
def loginPayload (key : Option String) : Option String :=
  if keyTruthy key then key else none

/-- The external collaborators of the authentication phase. -/
structure AuthEnv where
  credentialManagerKey : Option String
  promptKey : String
  firstLoginFails : Bool
  secondLoginFails : Bool
  httpError : HTTPErr

/-- `Client._authenticate_against_api(interactive, api_key)`: falls back to
the credential manager for a falsy key, warns and logs in anonymously when no
truthy key is available, and writes the key file only for a truthy key in an
interactive session after a successful login.  `loginFails` tells whether
this `api_login` call raises `HTTPError`. -/
def authenticateAgainstApi (env : AuthEnv) (interactive : Bool)
    (apiKey : Option String) (loginFails : Bool) :
    Except HTTPErr (Option String) × List AuthEvent :=
  let key := if keyTruthy apiKey then apiKey else env.credentialManagerKey
  let warnEvents : List AuthEvent :=
    if keyTruthy key then [] else [AuthEvent.warnedAnonymous]
  if loginFails then
    (Except.error env.httpError, warnEvents ++ [AuthEvent.apiLogin (loginPayload key)])
  else if keyTruthy key && interactive then
    (Except.ok key,
      warnEvents ++ [AuthEvent.apiLogin (loginPayload key),
        AuthEvent.wroteKeyToFile (key.getD "")])
  else
    (Except.ok key, warnEvents ++ [AuthEvent.apiLogin (loginPayload key)])

/-- The authentication phase of `Client.__init__`: one
`_authenticate_against_api(interactive)` call; on `HTTPError`, if interactive,
warn, prompt for a fresh key and retry exactly once with it (propagating the
outcome of that second attempt), otherwise re-raise the original error. -/
def clientInitAuth (env : AuthEnv) (interactive : Bool) :
    Except HTTPErr (Option String) × List AuthEvent :=
  let first := authenticateAgainstApi env interactive none env.firstLoginFails
  match first.1 with
  | Except.ok key => (Except.ok key, first.2)
  | Except.error e =>
    if interactive then
      let second := authenticateAgainstApi env interactive (some env.promptKey)
        env.secondLoginFails
      (second.1,
        first.2 ++ [AuthEvent.warnedInvalidKey, AuthEvent.promptedForKey] ++ second.2)
    else
      (Except.error e, first.2)

/-- The number of login requests recorded in a trace. -/
def loginCount (tr : List AuthEvent) : Nat :=
  tr.countP fun e =>
    match e with
    | AuthEvent.apiLogin _ => true
    | _ => false


theorem loginCount_auth (env : AuthEnv) (interactive : Bool)
    (apiKey : Option String) (loginFails : Bool) :
    loginCount (authenticateAgainstApi env interactive apiKey loginFails).2 = 1 := by
  simp only [authenticateAgainstApi]
  by_cases ht : keyTruthy (if keyTruthy apiKey = true then apiKey
      else env.credentialManagerKey) = true
  · by_cases hf : loginFails = true
    · simp [hf, ht, loginCount]
    · by_cases hi : interactive = true <;> simp [hf, ht, hi, loginCount]
  · by_cases hf : loginFails = true
    · simp [hf, ht, loginCount]
    · simp only [Bool.not_eq_true] at ht
      simp [hf, ht, loginCount]

theorem promptedForKey_not_in_auth (env : AuthEnv) (interactive : Bool)
    (apiKey : Option String) (loginFails : Bool) :
    AuthEvent.promptedForKey ∉ (authenticateAgainstApi env interactive apiKey loginFails).2 := by
  simp only [authenticateAgainstApi]
  by_cases ht : keyTruthy (if keyTruthy apiKey = true then apiKey
      else env.credentialManagerKey) = true
  · by_cases hf : loginFails = true
    · simp [hf, ht]
    · by_cases hi : interactive = true <;> simp [hf, ht, hi]
  · by_cases hf : loginFails = true
    · simp [hf, ht]
    · simp only [Bool.not_eq_true] at ht
      simp [hf, ht]

theorem apiLogin_self_in_auth (env : AuthEnv) (interactive : Bool)
    (loginFails : Bool) (p : String) (hp : p ≠ "") :
    AuthEvent.apiLogin (some p)
      ∈ (authenticateAgainstApi env interactive (some p) loginFails).2 := by
  have ht : keyTruthy (some p) = true := by simp [keyTruthy, hp]
  have hlp : loginPayload (some p) = some p := by simp [loginPayload, ht]
  simp only [authenticateAgainstApi, ht, if_pos]
  by_cases hf : loginFails = true
  · simp [hf, ht, hlp]
  · by_cases hi : interactive = true <;> simp [hf, ht, hi, hlp]

theorem authenticateAgainstApi_write_guard (env : AuthEnv) (interactive : Bool)
    (apiKey : Option String) (loginFails : Bool) (k : String)
    (hw : AuthEvent.wroteKeyToFile k
      ∈ (authenticateAgainstApi env interactive apiKey loginFails).2) :
    interactive = true ∧ k ≠ ""
      ∧ (authenticateAgainstApi env interactive apiKey loginFails).1
          = Except.ok (some k) := by
  simp only [authenticateAgainstApi] at hw ⊢
  generalize (if keyTruthy apiKey = true then apiKey
    else env.credentialManagerKey) = key at hw ⊢
  rcases key with _ | s
  · by_cases hf : loginFails = true
    · simp [hf, keyTruthy] at hw
    · simp [hf, keyTruthy] at hw
  · by_cases hf : loginFails = true
    · by_cases hs : (s == "") = true <;> simp [hf, keyTruthy, hs] at hw
    · rw [Bool.not_eq_true] at hf
      by_cases hs : (s == "") = true
      · simp [hf, keyTruthy, hs] at hw
      · rw [Bool.not_eq_true] at hs
        by_cases hi : interactive = true
        · subst hi
          simp [hf, keyTruthy, hs, loginPayload] at hw ⊢
          subst hw
          exact ⟨fun he => by rw [he] at hs; simp at hs, rfl⟩
        · rw [Bool.not_eq_true] at hi
          simp [hf, hi, keyTruthy, hs] at hw

/-- C4: with no explicit key, no key from the credential manager and
`interactive=False`, authentication completes as an anonymous login (a single
login request with the empty payload), a warning is logged and no credential
file is written; and in general a key is written to persistent credential
storage only when a non-empty key was used, the session is interactive and
the login succeeded with that key as the authentication result. -/
theorem client_auth_anonymous_and_write_guard (env : AuthEnv) :
    ((keyTruthy env.credentialManagerKey = false ∧ env.firstLoginFails = false) →
      clientInitAuth env false
        = (Except.ok env.credentialManagerKey,
            [AuthEvent.warnedAnonymous, AuthEvent.apiLogin none]))
    ∧ (∀ interactive k,
        AuthEvent.wroteKeyToFile k ∈ (clientInitAuth env interactive).2 →
          interactive = true ∧ k ≠ ""
            ∧ (clientInitAuth env interactive).1 = Except.ok (some k)) := by
  constructor
  · rintro ⟨hkey, hok⟩
    have hkn : keyTruthy (none : Option String) = false := rfl
    have h1 : authenticateAgainstApi env false none env.firstLoginFails
        = (Except.ok env.credentialManagerKey,
            [AuthEvent.warnedAnonymous, AuthEvent.apiLogin none]) := by
      simp only [authenticateAgainstApi, hkn, hok, loginPayload, hkey]
      simp [hkey]
    simp only [clientInitAuth, h1]
  · intro interactive k hw
    simp only [clientInitAuth] at hw ⊢
    rcases hfst : (authenticateAgainstApi env interactive none env.firstLoginFails).1
      with e | key
    · rw [hfst] at hw
      dsimp only at hw ⊢
      by_cases hi : interactive = true
      · rw [if_pos hi] at hw ⊢
        subst hi
        dsimp only at hw ⊢
        simp only [List.mem_append, List.mem_cons, List.mem_singleton,
          List.not_mem_nil] at hw
        rcases hw with (hw | hw) | hw
        · have hg := authenticateAgainstApi_write_guard env true none
            env.firstLoginFails k hw
          rw [hfst] at hg
          cases hg.2.2
        · rcases hw with hw | hw
          · cases hw
          · rcases hw with hw | hw
            · cases hw
            · cases hw
        · have hg := authenticateAgainstApi_write_guard env true (some env.promptKey)
            env.secondLoginFails k hw
          exact ⟨rfl, hg.2.1, hg.2.2⟩
      · rw [if_neg hi] at hw
        dsimp only at hw
        have hg := authenticateAgainstApi_write_guard env interactive none
          env.firstLoginFails k hw
        exact absurd hg.1 hi
    · rw [hfst] at hw
      dsimp only at hw ⊢
      have hg := authenticateAgainstApi_write_guard env interactive none
        env.firstLoginFails k hw
      obtain ⟨hi, hk, he⟩ := hg
      rw [hfst] at he
      exact ⟨hi, hk, he⟩

/-- Witness for C4: a concrete environment with no stored key and a
succeeding anonymous login, evaluated non-interactively. -/
theorem client_auth_anonymous_witness :
    clientInitAuth ⟨none, "prompted", false, false, ⟨401⟩⟩ false
      = (Except.ok none, [AuthEvent.warnedAnonymous, AuthEvent.apiLogin none]) :=
  (client_auth_anonymous_and_write_guard ⟨none, "prompted", false, false, ⟨401⟩⟩).1
    ⟨rfl, rfl⟩

/-- C5: when the first login attempt raises `HTTPError`: non-interactively the
original transport error propagates unchanged with no retry (a single login
request and no prompt); interactively the client retries exactly once (two
login requests in total) with a freshly prompted key, and the outcome of
construction is the outcome of that second attempt — in particular its error
propagates if it also fails. -/
theorem client_auth_retry_once (env : AuthEnv)
    (hfail : env.firstLoginFails = true) :
    ((clientInitAuth env false).1 = Except.error env.httpError
      ∧ loginCount (clientInitAuth env false).2 = 1
      ∧ AuthEvent.promptedForKey ∉ (clientInitAuth env false).2)
    ∧ (loginCount (clientInitAuth env true).2 = 2
      ∧ AuthEvent.promptedForKey ∈ (clientInitAuth env true).2
      ∧ (env.promptKey ≠ "" →
          AuthEvent.apiLogin (some env.promptKey) ∈ (clientInitAuth env true).2)
      ∧ (clientInitAuth env true).1
          = (authenticateAgainstApi env true (some env.promptKey)
              env.secondLoginFails).1
      ∧ (env.secondLoginFails = true →
          (clientInitAuth env true).1 = Except.error env.httpError)) := by
  have hfst : ∀ i : Bool, (authenticateAgainstApi env i none env.firstLoginFails).1
      = Except.error env.httpError := by
    intro i
    simp [authenticateAgainstApi, hfail]
  constructor
  · refine ⟨?_, ?_, ?_⟩
    · simp only [clientInitAuth]
      rw [hfst false]
      rfl
    · simp only [clientInitAuth]
      rw [hfst false]
      exact loginCount_auth env false none env.firstLoginFails
    · simp only [clientInitAuth]
      rw [hfst false]
      exact promptedForKey_not_in_auth env false none env.firstLoginFails
  · refine ⟨?_, ?_, ?_, ?_, ?_⟩
    · simp only [clientInitAuth]
      rw [hfst true]
      dsimp only
      rw [if_pos trivial]
      dsimp only
      simp only [loginCount, List.countP_append]
      rw [show List.countP (fun e =>
            match e with
            | AuthEvent.apiLogin _ => true
            | _ => false) [AuthEvent.warnedInvalidKey, AuthEvent.promptedForKey]
          = 0 from rfl]
      have h1 := loginCount_auth env true none env.firstLoginFails
      have h2 := loginCount_auth env true (some env.promptKey) env.secondLoginFails
      simp only [loginCount] at h1 h2
      omega
    · simp only [clientInitAuth]
      rw [hfst true]
      dsimp only
      rw [if_pos trivial]
      dsimp only
      simp
    · intro hp
      simp only [clientInitAuth]
      rw [hfst true]
      dsimp only
      rw [if_pos trivial]
      dsimp only
      simp only [List.mem_append]
      exact Or.inr (apiLogin_self_in_auth env true env.secondLoginFails
        env.promptKey hp)
    · simp only [clientInitAuth]
      rw [hfst true]
      dsimp only
      rw [if_pos trivial]
    · intro hs
      simp only [clientInitAuth]
      rw [hfst true]
      dsimp only
      rw [if_pos trivial]
      dsimp only
      simp [authenticateAgainstApi, hs]

/-- Witness for C5: a concrete environment whose stored key is rejected and
whose freshly prompted key is accepted on the interactive retry. -/
theorem client_auth_retry_once_witness :
    ((clientInitAuth ⟨some "badkey", "freshkey", true, false, ⟨401⟩⟩ false).1
        = Except.error (⟨some "badkey", "freshkey", true, false,
            (⟨401⟩ : HTTPErr)⟩ : AuthEnv).httpError
      ∧ loginCount
          (clientInitAuth ⟨some "badkey", "freshkey", true, false, ⟨401⟩⟩ false).2 = 1
      ∧ AuthEvent.promptedForKey
          ∉ (clientInitAuth ⟨some "badkey", "freshkey", true, false, ⟨401⟩⟩ false).2)
    ∧ (loginCount
          (clientInitAuth ⟨some "badkey", "freshkey", true, false, ⟨401⟩⟩ true).2 = 2
      ∧ AuthEvent.promptedForKey
          ∈ (clientInitAuth ⟨some "badkey", "freshkey", true, false, ⟨401⟩⟩ true).2
      ∧ ((⟨some "badkey", "freshkey", true, false,
            (⟨401⟩ : HTTPErr)⟩ : AuthEnv).promptKey ≠ "" →
          AuthEvent.apiLogin (some (⟨some "badkey", "freshkey", true, false,
              (⟨401⟩ : HTTPErr)⟩ : AuthEnv).promptKey)
            ∈ (clientInitAuth ⟨some "badkey", "freshkey", true, false, ⟨401⟩⟩ true).2)
      ∧ (clientInitAuth ⟨some "badkey", "freshkey", true, false, ⟨401⟩⟩ true).1
          = (authenticateAgainstApi ⟨some "badkey", "freshkey", true, false, ⟨401⟩⟩
              true (some "freshkey") false).1
      ∧ (false = true →
          (clientInitAuth ⟨some "badkey", "freshkey", true, false, ⟨401⟩⟩ true).1
            = Except.error (⟨some "badkey", "freshkey", true, false,
                (⟨401⟩ : HTTPErr)⟩ : AuthEnv).httpError)) :=
  client_auth_retry_once ⟨some "badkey", "freshkey", true, false, ⟨401⟩⟩ rfl

/-! Embedding of `modelon/impact/client/entities/project.py`. -/

/-- Supported content types in a project. -/
inductive ContentType where
  | MODELICA
  | VIEWS
  | FAVOURITES
  | CUSTOM_FUNCTIONS
  | REFERENCE_RESULTS
  | GENERIC
  deriving DecidableEq, Repr

/-- Type of project. -/
inductive ProjectType where
  | LOCAL
  | RELEASED
  | SYSTEM
  deriving DecidableEq, Repr

/-- `GitRepoURL` (a plain dataclass with derived field-wise equality). -/
structure GitRepoURL where
  url : String
  refname : String
  sha1 : String
  deriving DecidableEq, Repr

/-- `SvnRepoURL`: a project referenced in a Subversion repo.  `rev` empty
means HEAD. -/
structure SvnRepoURL where
  rootUrl : String
  branch : String
  urlFromRoot : String
  rev : String
  deriving DecidableEq, Repr

/-- `SvnRepoURL.get_rev`: an empty revision reads as HEAD. -/
def SvnRepoURL.getRev (u : SvnRepoURL) : String :=
  if u.rev = "" then "HEAD" else u.rev

/-- `SvnRepoURL.__eq__` on two `SvnRepoURL` values: effective revisions and
the three URL components must agree (the isinstance test holds for two values
of this type). -/
def svnRepoURLEq (a b : SvnRepoURL) : Bool :=
  a.getRev == b.getRev && a.rootUrl == b.rootUrl && a.branch == b.branch
    && a.urlFromRoot == b.urlFromRoot

/-- `RepoURL = Union[GitRepoURL, SvnRepoURL]`. -/
inductive RepoURL where
  | git (g : GitRepoURL)
  | svn (s : SvnRepoURL)
  deriving Repr

/-- `VcsUri`. -/
structure VcsUri where
  serviceKind : String
  serviceUrl : String
  repourl : RepoURL
  protocol : String
  subdir : String
  deriving Repr

/-- A `Content` entry.  `from_dict` stores the raw `relpath` string of the
payload, so equality on it is plain string equality. -/
structure Content where
  relpath : String
  contentType : ContentType
  id : String
  name : Option String
  defaultDisabled : Bool
  deriving DecidableEq, Repr

/-- A `ProjectDependency` entry. -/
structure ProjectDependency where
  name : String
  versionSpecifier : Option String
  deriving DecidableEq, Repr

/-- `ProjectDefinition`.  The execution options entries are option bags whose
equality delegates to their value mapping, so they are embedded as their
dicts. -/
structure ProjectDefinition where
  name : String
  version : Option String
  format : String
  dependencies : List ProjectDependency
  content : List Content
  executionOptions : List Dict
  deriving Repr

/-- Python `==` on two lists of option bags: element-wise mapping equality at
equal length. -/
def listPyDictEq : List Dict → List Dict → Bool
  | [], [] => true
  | a :: as, b :: bs => pyDictEq a b && listPyDictEq as bs
  | _, _ => false

/-- Python `==` on two `ProjectDefinition` dataclass instances: field-wise,
with the option bags compared through their mappings. -/
def projectDefinitionEq (a b : ProjectDefinition) : Bool :=
  a.name == b.name && a.version == b.version && a.format == b.format &&
    a.dependencies == b.dependencies && a.content == b.content &&
    listPyDictEq a.executionOptions b.executionOptions

/-- A `Project` entity.  `salRef` stands for the identity of the
`_project_sal` service handle; it is part of the object but not of its
equality. -/
structure Project where
  projectId : String
  projectDefinition : ProjectDefinition
  projectType : ProjectType
  vcsUri : Option VcsUri
  salRef : Nat

/-- A `ProjectContent` entity. -/
structure ProjectContent where
  content : Content
  projectId : String
  salRef : Nat

/-- The runtime class of an entity object, as seen by the isinstance checks
of `__eq__`. -/
inductive PyEntity where
  | project (p : Project)
  | projectContent (c : ProjectContent)

/-- `Project.__eq__` and `ProjectContent.__eq__`: an isinstance check
followed by comparison of the identifying key and the last-known definition
(resp. content entry); objects of different classes are never equal. -/
def pyEntityEq : PyEntity → PyEntity → Bool
  | .project a, .project b =>
      a.projectId == b.projectId
        && projectDefinitionEq a.projectDefinition b.projectDefinition
  | .projectContent a, .projectContent b =>
      a.content == b.content && a.projectId == b.projectId
  | .project _, .projectContent _ => false
  | .projectContent _, .project _ => false

theorem pyDictEq_refl (d : Dict) : pyDictEq d d = true :=
  (pyDictEq_iff d d).mpr fun _ => rfl

theorem listPyDictEq_refl (l : List Dict) : listPyDictEq l l = true := by
  induction l with
  | nil => rfl
  | cons a as ih => simp [listPyDictEq, pyDictEq_refl, ih]

theorem projectDefinitionEq_refl (a : ProjectDefinition) :
    projectDefinitionEq a a = true := by
  simp [projectDefinitionEq, listPyDictEq_refl]

/-- C8: entity equality is structural, not identity-based: two `Project`
instances are equal exactly when their project ids and project definitions
agree — in particular a copy with a different service handle, project type
and vcs uri is still equal — two `ProjectContent` instances are equal exactly
when their content entries and owning project ids agree, and an entity is
never equal to an object of the other class. -/
theorem entity_eq_structural (p q : Project) (c d : ProjectContent)
    (t : ProjectType) (u : Option VcsUri) (n : Nat) :
    (pyEntityEq (.project p) (.project q) = true ↔
      (p.projectId = q.projectId
        ∧ projectDefinitionEq p.projectDefinition q.projectDefinition = true))
    ∧ (pyEntityEq (.projectContent c) (.projectContent d) = true ↔
      (c.content = d.content ∧ c.projectId = d.projectId))
    ∧ pyEntityEq (.project p)
        (.project { p with projectType := t, vcsUri := u, salRef := n }) = true
    ∧ pyEntityEq (.project p) (.projectContent c) = false
    ∧ pyEntityEq (.projectContent c) (.project p) = false := by
  refine ⟨?_, ?_, ?_, rfl, rfl⟩
  · simp [pyEntityEq, Bool.and_eq_true, beq_iff_eq]
  · simp [pyEntityEq, Bool.and_eq_true, beq_iff_eq]
  · simp [pyEntityEq, Bool.and_eq_true, beq_iff_eq, projectDefinitionEq_refl]

/-- C10: `SvnRepoURL` equality agrees on the three URL components and the
effective revision (empty revision read as HEAD); it is reflexive, symmetric
and transitive; a URL with `rev` empty equals the same URL with `rev` HEAD,
although the two records differ, so the relation is coarser than field-wise
dataclass equality. -/
theorem svn_repo_url_eq_spec (a b c : SvnRepoURL) :
    (svnRepoURLEq a b = true ↔
      (a.rootUrl = b.rootUrl ∧ a.branch = b.branch ∧ a.urlFromRoot = b.urlFromRoot
        ∧ a.getRev = b.getRev))
    ∧ svnRepoURLEq a a = true
    ∧ svnRepoURLEq a b = svnRepoURLEq b a
    ∧ (svnRepoURLEq a b = true → svnRepoURLEq b c = true →
        svnRepoURLEq a c = true)
    ∧ svnRepoURLEq ⟨"svn.modelon.com/P1", "trunk", "sub", ""⟩
        ⟨"svn.modelon.com/P1", "trunk", "sub", "HEAD"⟩ = true
    ∧ (⟨"svn.modelon.com/P1", "trunk", "sub", ""⟩ : SvnRepoURL)
        ≠ ⟨"svn.modelon.com/P1", "trunk", "sub", "HEAD"⟩ := by
  have hiff : ∀ x y : SvnRepoURL, svnRepoURLEq x y = true ↔
      (x.rootUrl = y.rootUrl ∧ x.branch = y.branch ∧ x.urlFromRoot = y.urlFromRoot
        ∧ x.getRev = y.getRev) := by
    intro x y
    simp only [svnRepoURLEq, Bool.and_eq_true, beq_iff_eq]
    constructor
    · rintro ⟨⟨⟨h1, h2⟩, h3⟩, h4⟩
      exact ⟨h2, h3, h4, h1⟩
    · rintro ⟨h1, h2, h3, h4⟩
      exact ⟨⟨⟨h4, h1⟩, h2⟩, h3⟩
  refine ⟨hiff a b, ?_, ?_, ?_, by decide, by decide⟩
  · exact (hiff a a).mpr ⟨rfl, rfl, rfl, rfl⟩
  · rw [Bool.eq_iff_iff, hiff a b, hiff b a]
    constructor
    · rintro ⟨h1, h2, h3, h4⟩; exact ⟨h1.symm, h2.symm, h3.symm, h4.symm⟩
    · rintro ⟨h1, h2, h3, h4⟩; exact ⟨h1.symm, h2.symm, h3.symm, h4.symm⟩
  · intro hab hbc
    obtain ⟨h1, h2, h3, h4⟩ := (hiff a b).mp hab
    obtain ⟨g1, g2, g3, g4⟩ := (hiff b c).mp hbc
    exact (hiff a c).mpr ⟨h1.trans g1, h2.trans g2, h3.trans g3, h4.trans g4⟩

/-- Witness for C10: the equality and the record inequality at the concrete
pair of URLs differing only in the spelling of the HEAD revision. -/
theorem svn_repo_url_eq_spec_witness :
    svnRepoURLEq ⟨"svn.modelon.com/P1", "trunk", "sub", ""⟩
        ⟨"svn.modelon.com/P1", "trunk", "sub", "HEAD"⟩ = true
      ∧ (⟨"svn.modelon.com/P1", "trunk", "sub", ""⟩ : SvnRepoURL)
          ≠ ⟨"svn.modelon.com/P1", "trunk", "sub", "HEAD"⟩ :=
  have h := svn_repo_url_eq_spec ⟨"svn.modelon.com/P1", "trunk", "sub", ""⟩
    ⟨"svn.modelon.com/P1", "trunk", "sub", "HEAD"⟩
    ⟨"svn.modelon.com/P1", "trunk", "sub", "HEAD"⟩
  ⟨h.2.2.2.2.1, h.2.2.2.2.2⟩

/-! Embedding of `modelon/impact/client/experiment_definition.py`. -/

/-- A `CustomFunction` as seen by `SimpleExperimentDefinition` (only its
identity matters here). -/
structure CustomFunction where
  name : String
  deriving DecidableEq, Repr

/-- A `ModelExecutable` as seen by `SimpleExperimentDefinition`: its id, its
settable parameters, and the result of `is_successful()`. -/
structure ModelExecutable where
  fmuId : String
  settableParameters : List String
  successful : Bool
  deriving DecidableEq, Repr

/-- The `Range` operator, `Range(start_value, end_value, no_of_steps)`. -/
structure RangeOperator where
  startValue : Value
  endValue : Value
  noOfSteps : Value
  deriving DecidableEq, Repr

/-- Python `str()` of a scalar value. -/
def pyStr : Value → String
  | .int n => toString n
  | .str s => s
  | .bool b => if b then "True" else "False"

/-- `Range.__str__`: the f-string `range(start,end,steps)`. -/
def rangeStr (r : RangeOperator) : String :=
  "range(" ++ pyStr r.startValue ++ "," ++ pyStr r.endValue ++ ","
    ++ pyStr r.noOfSteps ++ ")"

/-- A modifier argument: an `Operator` (`Range`) or a plain value. -/
inductive ModifierValue where
  | operator (r : RangeOperator)
  | plain (v : Value)
  deriving DecidableEq, Repr

/-- The stored form of a modifier:
`str(value) if isinstance(value, Operator) else value`. -/
def storedModifier : ModifierValue → Value
  | .operator r => Value.str (rangeStr r)
  | .plain v => v

/-- The exceptions `with_modifiers` can raise: `KeyError` (carrying the
offending keys; Python renders them from a set, here they are kept in
argument order) from `_assert_settable_parameters`, and
`OperationFailureError` from `_assert_successful_compilation` in the
constructor. -/
inductive ExperimentDefError where
  | keyError (offending : List String)
  | operationFailureError
  deriving DecidableEq, Repr

/-- `_assert_settable_parameters(fmu, modifiers)`: the modifier keys not among
`fmu.settable_parameters()`; raises `KeyError` when any exist. -/
def assertSettableParameters (fmu : ModelExecutable)
    (modifiers : List (String × ModifierValue)) : Option ExperimentDefError :=
  let add := (modifiers.map Prod.fst).filter
    fun k => !(fmu.settableParameters.contains k)
  if add.isEmpty then none else some (ExperimentDefError.keyError add)

/-- A `SimpleExperimentDefinition` instance.  `optionsRef` stands for the
options object handle (its contents are irrelevant to `with_modifiers`). -/
structure SimpleExperimentDefinition where
  fmu : ModelExecutable
  customFunction : CustomFunction
  optionsRef : Nat
  simulationLogLevel : String
  variableModifiers : Dict
  deriving DecidableEq, Repr

/-- The `SimpleExperimentDefinition` constructor: `_assert_valid_args` holds
by typing in this embedding; `_assert_successful_compilation` raises
`OperationFailureError` for an unsuccessful fmu; `variable_modifiers` starts
as a fresh empty dict. -/
def mkSimpleExperimentDefinition (fmu : ModelExecutable) (cf : CustomFunction)
    (optionsRef : Nat) (logLevel : String) :
    Except ExperimentDefError SimpleExperimentDefinition :=
  if fmu.successful then
    Except.ok ⟨fmu, cf, optionsRef, logLevel, []⟩
  else Except.error ExperimentDefError.operationFailureError

/-- `SimpleExperimentDefinition.with_modifiers(modifiers, **kwargs)`: assert
both argument dicts settable, build a fresh definition through the
constructor, then fill its modifier dict from the chained items with Operator
values converted to strings. -/
def withModifiers (d : SimpleExperimentDefinition)
    (modifiers kwargs : List (String × ModifierValue)) :
    Except ExperimentDefError SimpleExperimentDefinition :=
  match assertSettableParameters d.fmu modifiers with
  | some e => Except.error e
  | none =>
    match assertSettableParameters d.fmu kwargs with
    | some e => Except.error e
    | none =>
      (mkSimpleExperimentDefinition d.fmu d.customFunction d.optionsRef
        d.simulationLogLevel).map fun new =>
        { new with
            variableModifiers :=
              (modifiers ++ kwargs).foldl
                (fun acc kv => acc.set kv.1 (storedModifier kv.2)) [] }

/-- The stored form of a whole modifier argument list. -/
def storedDict (l : List (String × ModifierValue)) : Dict :=
  l.map fun kv => (kv.1, storedModifier kv.2)

theorem storedDict_keys (l : List (String × ModifierValue)) :
    (storedDict l).keys = l.map Prod.fst := by
  simp [storedDict, Dict.keys, List.map_map, Function.comp]

theorem assertSettableParameters_eq_none_iff (fmu : ModelExecutable)
    (l : List (String × ModifierValue)) :
    assertSettableParameters fmu l = none ↔
      ∀ k ∈ l.map Prod.fst, k ∈ fmu.settableParameters := by
  simp only [assertSettableParameters]
  by_cases h : ((l.map Prod.fst).filter
      fun k => !(fmu.settableParameters.contains k)).isEmpty = true
  · rw [if_pos h]
    simp only [true_iff]
    rw [List.isEmpty_iff, List.filter_eq_nil_iff] at h
    intro k hk
    have := h k hk
    simpa using this
  · rw [if_neg h]
    simp only [reduceCtorEq, false_iff]
    intro hall
    apply h
    rw [List.isEmpty_iff, List.filter_eq_nil_iff]
    intro k hk
    simpa using hall k hk

theorem foldl_set_storedDict (b : Dict) (l : List (String × ModifierValue)) :
    l.foldl (fun acc kv => acc.set kv.1 (storedModifier kv.2)) b
      = Dict.update b (storedDict l) := by
  rw [Dict.update, storedDict, List.foldl_map]

theorem withModifiers_ok_eq (d : SimpleExperimentDefinition)
    (modifiers kwargs : List (String × ModifierValue))
    (hfmu : d.fmu.successful = true)
    (hm : assertSettableParameters d.fmu modifiers = none)
    (hk : assertSettableParameters d.fmu kwargs = none) :
    withModifiers d modifiers kwargs
      = Except.ok ⟨d.fmu, d.customFunction, d.optionsRef, d.simulationLogLevel,
          Dict.update (Dict.update [] (storedDict modifiers)) (storedDict kwargs)⟩ := by
  rw [withModifiers, hm, hk, mkSimpleExperimentDefinition, if_pos hfmu]
  dsimp only [Except.map]
  rw [List.foldl_append, foldl_set_storedDict, foldl_set_storedDict]

theorem assertSettableParameters_eq_some (fmu : ModelExecutable)
    (l : List (String × ModifierValue))
    (h : ∃ k ∈ l.map Prod.fst, k ∉ fmu.settableParameters) :
    assertSettableParameters fmu l = some (ExperimentDefError.keyError
      ((l.map Prod.fst).filter fun k => !(fmu.settableParameters.contains k))) := by
  obtain ⟨k, hk, hns⟩ := h
  rw [assertSettableParameters]
  rw [if_neg]
  intro he
  rw [List.isEmpty_iff, List.filter_eq_nil_iff] at he
  have := he k hk
  simp at this
  exact hns this

/-- C9: `with_modifiers` raises `KeyError` exactly when some modifier key (in
either argument form) is not among the settable parameters of the fmu;
otherwise it returns a fresh definition carrying the same fmu, custom
function, options and log level, whose variable modifiers are exactly the
modifiers of this call (keyword arguments overriding the dict argument on a
shared key, `Operator` values converted to their string form), discarding any
modifiers previously set on the receiver, which is not consulted and not
changed. -/
theorem with_modifiers_spec (d : SimpleExperimentDefinition)
    (modifiers kwargs : List (String × ModifierValue))
    (hfmu : d.fmu.successful = true)
    (hm : (modifiers.map Prod.fst).Nodup) (hk : (kwargs.map Prod.fst).Nodup) :
    ((∃ ks, withModifiers d modifiers kwargs
        = Except.error (ExperimentDefError.keyError ks)) ↔
      ∃ key ∈ modifiers.map Prod.fst ++ kwargs.map Prod.fst,
        key ∉ d.fmu.settableParameters)
    ∧ (∀ new, withModifiers d modifiers kwargs = Except.ok new →
        (new.fmu = d.fmu ∧ new.customFunction = d.customFunction
          ∧ new.optionsRef = d.optionsRef
          ∧ new.simulationLogLevel = d.simulationLogLevel)
        ∧ ∀ k, new.variableModifiers.get? k =
            if k ∈ kwargs.map Prod.fst then (storedDict kwargs).get? k
            else if k ∈ modifiers.map Prod.fst then (storedDict modifiers).get? k
            else none)
    ∧ (∀ vm, withModifiers { d with variableModifiers := vm } modifiers kwargs
        = withModifiers d modifiers kwargs) := by
  refine ⟨⟨?_, ?_⟩, ?_, ?_⟩
  · rintro ⟨ks, he⟩
    by_cases h1 : assertSettableParameters d.fmu modifiers = none
    · by_cases h2 : assertSettableParameters d.fmu kwargs = none
      · rw [withModifiers_ok_eq d modifiers kwargs hfmu h1 h2] at he
        cases he
      · rw [assertSettableParameters_eq_none_iff] at h2
        push_neg at h2
        obtain ⟨key, hmem, hns⟩ := h2
        exact ⟨key, List.mem_append.mpr (Or.inr hmem), hns⟩
    · rw [assertSettableParameters_eq_none_iff] at h1
      push_neg at h1
      obtain ⟨key, hmem, hns⟩ := h1
      exact ⟨key, List.mem_append.mpr (Or.inl hmem), hns⟩
  · rintro ⟨key, hmem, hns⟩
    by_cases h1 : assertSettableParameters d.fmu modifiers = none
    · rcases List.mem_append.mp hmem with hin | hin
      · exact absurd ((assertSettableParameters_eq_none_iff d.fmu modifiers).mp
          h1 key hin) hns
      · have h2 := assertSettableParameters_eq_some d.fmu kwargs ⟨key, hin, hns⟩
        refine ⟨(kwargs.map Prod.fst).filter
          (fun k => !(d.fmu.settableParameters.contains k)), ?_⟩
        rw [withModifiers, h1, h2]
    · rcases hsome : assertSettableParameters d.fmu modifiers with _ | e
      · exact absurd hsome h1
      · have : e = ExperimentDefError.keyError ((modifiers.map Prod.fst).filter
            fun k => !(d.fmu.settableParameters.contains k)) := by
          have hx : ∃ k ∈ modifiers.map Prod.fst,
              k ∉ d.fmu.settableParameters := by
            have h1x := h1
            rw [assertSettableParameters_eq_none_iff] at h1x
            push_neg at h1x
            exact h1x
          have := assertSettableParameters_eq_some d.fmu modifiers hx
          rw [hsome] at this
          exact Option.some_inj.mp this
        subst this
        refine ⟨(modifiers.map Prod.fst).filter
          (fun k => !(d.fmu.settableParameters.contains k)), ?_⟩
        rw [withModifiers, hsome]
  · intro new h
    rcases h1 : assertSettableParameters d.fmu modifiers with _ | e
    · rcases h2 : assertSettableParameters d.fmu kwargs with _ | e
      · rw [withModifiers_ok_eq d modifiers kwargs hfmu h1 h2] at h
        injection h with h
        subst h
        refine ⟨⟨rfl, rfl, rfl, rfl⟩, ?_⟩
        intro k
        have hwfk : Dict.WF (storedDict kwargs) := by
          rw [Dict.WF, storedDict_keys]; exact hk
        have hwfm : Dict.WF (storedDict modifiers) := by
          rw [Dict.WF, storedDict_keys]; exact hm
        dsimp only
        rw [Dict.get?_update _ _ hwfk k, storedDict_keys]
        by_cases hkk : k ∈ kwargs.map Prod.fst
        · rw [if_pos hkk, if_pos hkk]
        · rw [if_neg hkk, if_neg hkk,
            Dict.get?_update _ _ hwfm k, storedDict_keys]
          by_cases hkm : k ∈ modifiers.map Prod.fst
          · rw [if_pos hkm, if_pos hkm]
          · rw [if_neg hkm, if_neg hkm]
            rfl
      · rw [withModifiers, h1, h2] at h
        cases h
    · rw [withModifiers, h1] at h
      cases h
  · intro vm
    rfl

def sampleFmu : ModelExecutable := ⟨"fmu1", ["inertia1.J", "inertia2.J", "w"], true⟩

def sampleDefinition : SimpleExperimentDefinition :=
  ⟨sampleFmu, ⟨"dynamic"⟩, 0, "WARNING", [("old", Value.int 3)]⟩

/-- Witness for C9: at a concrete definition and modifier arguments, the
receiver content plays no role in the result. -/
theorem with_modifiers_spec_witness :
    withModifiers { sampleDefinition with
        variableModifiers := [("x", Value.int 9)] }
      [("inertia1.J", ModifierValue.plain (Value.int 2))]
      [("w", ModifierValue.operator ⟨Value.int 0, Value.int 5, Value.int 3⟩)]
    = withModifiers sampleDefinition
      [("inertia1.J", ModifierValue.plain (Value.int 2))]
      [("w", ModifierValue.operator ⟨Value.int 0, Value.int 5, Value.int 3⟩)] :=
  (with_modifiers_spec sampleDefinition
    [("inertia1.J", ModifierValue.plain (Value.int 2))]
    [("w", ModifierValue.operator ⟨Value.int 0, Value.int 5, Value.int 3⟩)]
    rfl (by decide) (by decide)).2.2 [("x", Value.int 9)]
